import Mathlib

/-!
Verification development for the Real-Debrid downloader
(`src/program/downloaders/realdebrid.py`).

The downloader is embedded shallowly: the remote transport (`get`/`post` of
`utils.request`) is an oracle `RDOracle` mapping each request to one of three
outcomes (an ok payload, a non-ok response, or a raised exception), and every
method additionally returns the list of observable `Event`s it produced
(remote calls issued, log lines, sleeps), in order.  Python dicts are
association lists with first-key-position/last-value-wins assignment
(`dictSet`), and statements that can raise (`info["files"]` on an empty dict,
`[0]` on an empty list) live in `Except String`.

The `FileFinder` of `program.downloaders.shared` is not part of the sources;
the matcher is therefore kept as an abstract parameter
`fd : Item → List IdFile → List IdFile` wherever the downloader calls
`self.finder.find_required_files`, and its filesize gate is modelled from the
spec where a claim needs it.
-/

namespace RD

/-- A file as reported inside an instant-availability container:
`{"filename": ..., "filesize": ...}`. -/
structure RDFile where
  filename : String
  filesize : Int
deriving DecidableEq, Repr

/-- A file dict after `is_cached` has tagged it: `{**file, 'id': file_id}`. -/
structure IdFile where
  id : Nat
  filename : String
  filesize : Int
deriving DecidableEq, Repr

/-- One availability container: a dict `file_id -> file`. -/
abbrev Container := List (Nat × RDFile)

/-- The availability payload attached to one hash.  Real-Debrid answers with a
dict `{"rd": [container, ...]}`, but `is_cached` guards `type(provider) != dict`,
so a non-dict payload is representable too. -/
inductive HashAvail where
  | dict (variants : List (String × List Container))
  | other
deriving DecidableEq, Repr

/-- The whole instant-availability response: a dict `hash -> payload`. -/
abbrev AvailData := List (String × HashAvail)

/-- One entry of the account torrent list (`SimpleNamespace` with `.id` and
`.hash` as used by the downloader). -/
structure TorrentRecord where
  id : String
  hash : String
deriving DecidableEq, Repr

/-- One entry of `info["files"]` as returned by `/torrents/info/{id}`. -/
structure InfoFile where
  path : String
  bytes : Int
  id : Nat
  selected : Bool
deriving DecidableEq, Repr

/-- A populated torrent-info record (the keys the downloader reads). -/
structure TorrentInfo where
  filename : String
  original_filename : String
  files : List InfoFile
deriving DecidableEq, Repr

/-- Outcome of one transport call: `ok` with the parsed payload
(`response.is_ok` true), `notOk` (`response.is_ok` false), or `exn`
(the call raised). -/
inductive RemoteResult (α : Type) where
  | ok (data : α)
  | notOk
  | exn
deriving DecidableEq, Repr

/-- Observable actions of the downloader, in program order. -/
inductive Event where
  | availQuery (hashes : List String)
  | torrentsQuery (limit : Nat)
  | infoQuery (id : String)
  | addMagnetQuery (hash : String)
  | selectQuery (id : Option String) (fileIds : List Nat)
  | matcherCall (hash : String) (result : List IdFile)
  | sleep (seconds : Nat)
  | logError (msg : String)
  | logDebug (msg : String)
  | logDebrid (msg : String)
deriving DecidableEq, Repr

/-- The remote side, one response per request shape. -/
structure RDOracle where
  availResp : List String → RemoteResult AvailData
  torrentsResp : Nat → RemoteResult (List TorrentRecord)
  torrentInfoResp : String → RemoteResult TorrentInfo
  addMagnetResp : String → RemoteResult String
  selectFilesResp : Option String → List Nat → RemoteResult Unit

/-! ### Media items

The media-item tree itself lives outside these sources (`program.media.item`);
its shape is taken from the spec's data model (§3): movies/episodes carry the
mutable `folder` / `alternative_folder` / `file` fields, shows own seasons own
episodes.  The downloader only writes those three fields and traverses
`item.seasons` / `season.episodes`. -/

/-- The `{folder, alternative_folder, file}` fields written by a binding. -/
structure Binding where
  folder : Option String := none
  alternative_folder : Option String := none
  file : Option String := none
deriving DecidableEq, Repr

structure EpisodeItem where
  number : Nat
  binding : Binding
deriving DecidableEq, Repr

structure SeasonItem where
  number : Nat
  episodes : List EpisodeItem
deriving DecidableEq, Repr

/-- One media item, tagged like Python's `item.type` dispatch
(`movie` / `show` / `season` / `episode`). -/
inductive Item where
  | movie (binding : Binding)
  | tvshow (seasons : List SeasonItem)
  | season (s : SeasonItem)
  | episode (e : EpisodeItem)
deriving DecidableEq, Repr

/-- Modelled from the spec: a `Stream` is "an info-hash plus optional raw
title metadata" (§3); only the info-hash is consumed here. -/
structure Stream where
  infohash : String
deriving DecidableEq, Repr

/-- Modelled from the spec: the media-item store (§6) exposes candidate
streams plus blacklist membership check/update; the variant-specific tree is
in `core`. -/
structure MediaItem where
  core : Item
  streams : List Stream
  blacklisted : List Stream
deriving DecidableEq, Repr

/-- Modelled from the spec: blacklist membership check. -/
def MediaItem.is_stream_blacklisted (i : MediaItem) (s : Stream) : Bool :=
  decide (s ∈ i.blacklisted)

/-- Modelled from the spec: blacklist update (terminal per-item rejection). -/
def MediaItem.blacklist_stream (i : MediaItem) (s : Stream) : MediaItem :=
  { i with blacklisted := i.blacklisted ++ [s] }

/-- The dict built by `is_cached`: `hash -> matched files`. -/
abbrev RDict := List (String × List IdFile)

/-- Python dict assignment `d[k] = v` on an association list: overwrite in
place if the key exists (keeping its position), else append. -/
def dictSet {α : Type} (k : String) (v : α) : List (String × α) → List (String × α)
  | [] => [(k, v)]
  | (k', v') :: rest => if k' = k then (k, v) :: rest else (k', v') :: dictSet k v rest

/-- `Path(s).name`: the final path component (characters after the last
slash). -/
def pathName (s : String) : String :=
  String.mk (s.toList.foldl (fun acc c => if c = '/' then [] else acc ++ [c]) [])

/-- `[{**file, 'id': file_id} for file_id, file in container.items()]`. -/
def tagContainer (c : Container) : List IdFile :=
  c.map fun p => ⟨p.1, p.2.filename, p.2.filesize⟩

/-- The matcher input built from raw torrent-info file dicts. -/
def rawIdFiles (fs : List InfoFile) : List IdFile :=
  fs.map fun f => ⟨f.id, f.path, f.bytes⟩

/-- `[{"filename": Path(file["path"]).name, "filesize": file["bytes"], 'id': file["id"]}
for file in info["files"] if file["selected"]]`. -/
def selectedFiles (fs : List InfoFile) : List IdFile :=
  (fs.filter (·.selected)).map fun f => ⟨f.id, pathName f.path, f.bytes⟩

/-- `info["files"]` on the result of `get_torrent_info`: a `KeyError` when the
record is the empty dict `{}`. -/
def infoFiles : Option TorrentInfo → Except String (List InfoFile)
  | none => .error "KeyError: files"
  | some i => .ok i.files

/-- Indexing `[0]`: an `IndexError` on the empty list. -/
def headE : List IdFile → Except String IdFile
  | [] => .error "IndexError: list index out of range"
  | f :: _ => .ok f

/-- The three `item.set(...)` writes of one binding; reading
`info["filename"]` / `info["original_filename"]` raises `KeyError` on the
empty record. -/
def mkBinding (info : Option TorrentInfo) (fname : String) : Except String Binding :=
  match info with
  | none => .error "KeyError: filename"
  | some i => .ok ⟨some i.filename, some i.original_filename, some (pathName fname)⟩

/-- Python truthiness of the torrent id (`None` and `""` are falsy). -/
def truthyId : Option String → Bool
  | none => false
  | some s => s != ""

/-- Python falsiness of the `container` argument of `set_active_files`
(`None` or an empty list). -/
def containerFalsy : Option (List IdFile) → Bool
  | none => true
  | some l => l.isEmpty

/-! ### API methods (`realdebrid.py` lines 248–338) -/

/-- `add_magnet` (lines 248–264): posts the magnet; on ok returns
`response.data.id`, otherwise logs and returns `None`. -/
def add_magnet (o : RDOracle) (hash : String) : Option String × List Event :=
  match o.addMagnetResp hash with
  | .ok tid => (some tid, [.addMagnetQuery hash])
  | .notOk => (none, [.addMagnetQuery hash, .logError "Failed to add magnet"])
  | .exn => (none, [.addMagnetQuery hash, .logError "Failed to add magnet"])

/-- `get_instant_availability` (lines 266–285): empty input logs an error and
returns `{}` without any network call; otherwise one bulk query, with `{}` on
a non-ok response or an exception. -/
def get_instant_availability (o : RDOracle) (hashes : List String) :
    AvailData × List Event :=
  if hashes = [] then ([], [.logError "No hashes found"])
  else
    match o.availResp hashes with
    | .ok data => (data, [.availQuery hashes])
    | .notOk => ([], [.availQuery hashes])
    | .exn => ([], [.availQuery hashes, .logError "Error getting instant availability"])

/-- `get_torrent_info` (lines 287–306): a falsy id short-circuits to `{}`;
otherwise one query, `{}` (here `none`) unless the response is ok. -/
def get_torrent_info (o : RDOracle) (request_id : Option String) :
    Option TorrentInfo × List Event :=
  match request_id with
  | none => (none, [.logError "No request ID found"])
  | some rid =>
    if rid = "" then (none, [.logError "No request ID found"])
    else
      match o.torrentInfoResp rid with
      | .ok info => (some info, [.infoQuery rid])
      | .notOk => (none, [.infoQuery rid])
      | .exn => (none, [.infoQuery rid, .logError "Error getting torrent info"])

/-- `select_files` (lines 309–322): joins the container's file ids (iterating
`None` raises inside the `try`, caught before any call), posts, and returns
`response.is_ok`; an exception logs and returns `False`. -/
def select_files (o : RDOracle) (request_id : Option String)
    (container : Option (List IdFile)) : Bool × List Event :=
  match container with
  | none => (false, [.logError "Error selecting files"])
  | some files =>
    match o.selectFilesResp request_id (files.map (·.id)) with
    | .ok _ => (true, [.selectQuery request_id (files.map (·.id))])
    | .notOk => (false, [.selectQuery request_id (files.map (·.id))])
    | .exn => (false, [.selectQuery request_id (files.map (·.id)),
        .logError "Error selecting files"])

/-- `get_torrents` (lines 324–338): on an ok, non-empty listing builds
`{torrent.hash: torrent for torrent in response.data}`; else `{}`. -/
def get_torrents (o : RDOracle) (limit : Nat) :
    List (String × TorrentRecord) × List Event :=
  match o.torrentsResp limit with
  | .ok data =>
    if data = [] then ([], [.torrentsQuery limit])
    else (data.foldl (fun d t => dictSet t.hash t d) [], [.torrentsQuery limit])
  | .notOk => ([], [.torrentsQuery limit])
  | .exn => ([], [.torrentsQuery limit, .logError "Error getting torrents from Real-Debrid"])

/-! ### `is_cached` (lines 135–152)

The three nested loops of `is_cached` are split level by level.  Each scan
returns the updated dict, its events, and a flag set exactly when the Python
code executed `return return_dict` early (which only happens under
`break_on_first`). -/

/-- The inner `for container in container_list` loop for one hash.  A
non-empty match assigns `return_dict[hash] = files` and then either returns
early (`break_on_first`) or `break`s out of this loop only. -/
def scanContainers (fd : Item → List IdFile → List IdFile) (item : Item)
    (hash : String) (bof : Bool) (d : RDict) :
    List Container → RDict × List Event × Bool
  | [] => (d, [], false)
  | c :: rest =>
    let files := fd item (tagContainer c)
    if files = [] then
      let r := scanContainers fd item hash bof d rest
      (r.1, .matcherCall hash files :: r.2.1, r.2.2)
    else
      (dictSet hash files d, [.matcherCall hash files], bof)

/-- The `for container_list in provider.values()` loop: an inner `break`
moves on to the next container list; an early return stops everything. -/
def scanVariants (fd : Item → List IdFile → List IdFile) (item : Item)
    (hash : String) (bof : Bool) (d : RDict) :
    List (List Container) → RDict × List Event × Bool
  | [] => (d, [], false)
  | cl :: rest =>
    let r := scanContainers fd item hash bof d cl
    if r.2.2 then (r.1, r.2.1, true)
    else
      let r2 := scanVariants fd item hash bof r.1 rest
      (r2.1, r.2.1 ++ r2.2.1, r2.2.2)

/-- The outer `for hash, provider in cached_hashes.items()` loop; a non-dict
payload is skipped with `continue`. -/
def scanHashes (fd : Item → List IdFile → List IdFile) (item : Item)
    (bof : Bool) (d : RDict) :
    List (String × HashAvail) → RDict × List Event × Bool
  | [] => (d, [], false)
  | (h, hv) :: rest =>
    match hv with
    | .other => scanHashes fd item bof d rest
    | .dict vs =>
      let r := scanVariants fd item h bof d (vs.map Prod.snd)
      if r.2.2 then (r.1, r.2.1, true)
      else
        let r2 := scanHashes fd item bof r.1 rest
        (r2.1, r.2.1 ++ r2.2.1, r2.2.2)

/-- `is_cached` (lines 135–152): one bulk availability query, then the nested
matching loops when the response dict is truthy. -/
def is_cached (fd : Item → List IdFile → List IdFile) (o : RDOracle)
    (item : Item) (streams : List String) (break_on_first : Bool) :
    RDict × List Event :=
  let gia := get_instant_availability o streams
  if gia.1 = [] then ([], gia.2)
  else
    let r := scanHashes fd item break_on_first [] gia.1
    (r.1, gia.2 ++ r.2.1)

/-! ### Download orchestration (lines 154–244) -/

/-- The per-episode loop body shared by the `show` and `season` branches of
`set_active_files`: each episode with a non-empty match gets the three
`episode.set` writes (each reading the info record, so raising on `{}`). -/
def setEpisodes (fd : Item → List IdFile → List IdFile)
    (info : Option TorrentInfo) (files : List IdFile) :
    List EpisodeItem → Except String (List EpisodeItem)
  | [] => .ok []
  | e :: rest =>
    match fd (.episode e) files with
    | [] => do
      let rest' ← setEpisodes fd info files rest
      pure (e :: rest')
    | f :: _ => do
      let b ← mkBinding info f.filename
      let rest' ← setEpisodes fd info files rest
      pure (EpisodeItem.mk e.number b :: rest')

/-- The `for season in item.seasons` loop of the `show` branch. -/
def setSeasons (fd : Item → List IdFile → List IdFile)
    (info : Option TorrentInfo) (files : List IdFile) :
    List SeasonItem → Except String (List SeasonItem)
  | [] => .ok []
  | s :: rest => do
    let eps ← setEpisodes fd info files s.episodes
    let rest' ← setSeasons fd info files rest
    pure (SeasonItem.mk s.number eps :: rest')

/-- The value computed by `set_active_files` from the (possibly empty) info
record: recomputes the container from `info["files"]` when the given one is
falsy, then writes the bindings per item type.  The movie/episode branches
index `[0]` into the matcher result and read `info["filename"]`, both of
which can raise. -/
def safResult (fd : Item → List IdFile → List IdFile) (item : Item)
    (info : Option TorrentInfo) (container : Option (List IdFile)) :
    Except String Item :=
  match (if containerFalsy container then
      (infoFiles info).map fun fs => fd item (rawIdFiles fs)
    else .ok (container.getD [])) with
  | .error e => .error e
  | .ok cont =>
    if cont = [] then .ok item
    else
      match item with
      | .movie _ => do
        let f ← headE (fd item cont)
        let b ← mkBinding info f.filename
        pure (Item.movie b)
      | .tvshow seasons => do
        let ss ← setSeasons fd info (fd item cont) seasons
        pure (Item.tvshow ss)
      | .season s => do
        let eps ← setEpisodes fd info (fd item cont) s.episodes
        pure (Item.season ⟨s.number, eps⟩)
      | .episode e => do
        let f ← headE (fd item cont)
        let b ← mkBinding info f.filename
        pure (Item.episode ⟨e.number, b⟩)

/-- `set_active_files` (lines 205–244): one torrent-info fetch, then the pure
binding computation `safResult` on its payload. -/
def set_active_files (fd : Item → List IdFile → List IdFile) (o : RDOracle)
    (item : Item) (torrent_id : Option String) (container : Option (List IdFile)) :
    Except String Item × List Event :=
  (safResult fd item (get_torrent_info o torrent_id).1 container,
    (get_torrent_info o torrent_id).2)

/-- `torrent_is_downloaded` (lines 183–203): looks the hash up in the account
torrent list, reads `info["files"]` (raising on the empty record), filters to
the selected files, and returns the torrent id only if the matcher still
succeeds on them. -/
def torrent_is_downloaded (fd : Item → List IdFile → List IdFile) (o : RDOracle)
    (item : Item) (hash_key : String) : Except String (Option String) × List Event :=
  match List.lookup hash_key (get_torrents o 1000).1 with
  | none =>
    (.ok none, .logDebug "Checking if torrent is already downloaded" :: (get_torrents o 1000).2 ++
      [.logDebug "No matching torrent found"])
  | some torrent =>
    match infoFiles (get_torrent_info o (some torrent.id)).1 with
    | .error e =>
      (.error e, .logDebug "Checking if torrent is already downloaded" :: (get_torrents o 1000).2 ++
        (get_torrent_info o (some torrent.id)).2)
    | .ok files =>
      if files = [] then
        (.ok none, .logDebug "Checking if torrent is already downloaded" :: (get_torrents o 1000).2 ++
          (get_torrent_info o (some torrent.id)).2 ++ [.logDebug "Failed to get torrent info"])
      else if fd item (selectedFiles files) = [] then
        (.ok none, .logDebug "Checking if torrent is already downloaded" :: (get_torrents o 1000).2 ++
          (get_torrent_info o (some torrent.id)).2)
      else
        (.ok (some torrent.id),
          .logDebug "Checking if torrent is already downloaded" :: (get_torrents o 1000).2 ++
            (get_torrent_info o (some torrent.id)).2)

/-- `download` (lines 154–164): reuse the existing torrent if
`torrent_is_downloaded` found one, else add the magnet, sleep one second,
select the files (result ignored), and set the active files either way. -/
def download (fd : Item → List IdFile → List IdFile) (o : RDOracle)
    (item : Item) (stream : String) (container : List IdFile) :
    Except String Item × List Event :=
  match (torrent_is_downloaded fd o item stream).1 with
  | .error e => (.error e, (torrent_is_downloaded fd o item stream).2)
  | .ok tid? =>
    if truthyId tid? then
      match (set_active_files fd o item tid? (some container)).1 with
      | .ok item' =>
        (.ok item', (torrent_is_downloaded fd o item stream).2 ++
          (set_active_files fd o item tid? (some container)).2 ++ [.logDebug "Downloaded"])
      | .error e =>
        (.error e, (torrent_is_downloaded fd o item stream).2 ++
          (set_active_files fd o item tid? (some container)).2)
    else
      match (set_active_files fd o item (add_magnet o stream).1 (some container)).1 with
      | .ok item' =>
        (.ok item', (torrent_is_downloaded fd o item stream).2 ++ (add_magnet o stream).2 ++
          [.sleep 1] ++ (select_files o (add_magnet o stream).1 (some container)).2 ++
          (set_active_files fd o item (add_magnet o stream).1 (some container)).2 ++
          [.logDebug "Downloaded"])
      | .error e =>
        (.error e, (torrent_is_downloaded fd o item stream).2 ++ (add_magnet o stream).2 ++
          [.sleep 1] ++ (select_files o (add_magnet o stream).1 (some container)).2 ++
          (set_active_files fd o item (add_magnet o stream).1 (some container)).2)

/-- The `for stream in item.streams` loop of `run` (lines 110–129):
blacklisted streams are skipped, an empty `is_cached` dict blacklists the
stream, and the first cached stream is downloaded (`file_dict[stream.infohash]`
raising `KeyError` if the response was keyed differently) before breaking with
`True`. -/
def runLoop (fd : Item → List IdFile → List IdFile) (o : RDOracle)
    (item : MediaItem) : List Stream → Except String (Bool × MediaItem) × List Event
  | [] => (.ok (false, item), [])
  | s :: rest =>
    if item.is_stream_blacklisted s then runLoop fd o item rest
    else
      if (is_cached fd o item.core [s.infohash] true).1 = [] then
        ((runLoop fd o (item.blacklist_stream s) rest).1,
          (is_cached fd o item.core [s.infohash] true).2 ++
            [.logDebug "Blacklisting uncached hash"] ++
            (runLoop fd o (item.blacklist_stream s) rest).2)
      else
        match List.lookup s.infohash (is_cached fd o item.core [s.infohash] true).1 with
        | none =>
          (.error "KeyError: infohash", (is_cached fd o item.core [s.infohash] true).2 ++
            [.logDebrid "Item has cached containers"])
        | some files =>
          match (download fd o item.core s.infohash files).1 with
          | .ok core' =>
            (.ok (true, ⟨core', item.streams, item.blacklisted⟩),
              (is_cached fd o item.core [s.infohash] true).2 ++
                [.logDebrid "Item has cached containers"] ++
                (download fd o item.core s.infohash files).2)
          | .error e =>
            (.error e, (is_cached fd o item.core [s.infohash] true).2 ++
              [.logDebrid "Item has cached containers"] ++
              (download fd o item.core s.infohash files).2)

/-- `run` (lines 110–129). -/
def run (fd : Item → List IdFile → List IdFile) (o : RDOracle) (item : MediaItem) :
    Except String (Bool × MediaItem) × List Event :=
  runLoop fd o item item.streams

/-! ### Settings and the finder's filesize configuration (lines 31–69) -/

/-- The four per-content-class filesize settings read by the downloader. -/
structure DownloadersSettings where
  movie_filesize_min : Int
  movie_filesize_max : Int
  episode_filesize_min : Int
  episode_filesize_max : Int
deriving DecidableEq, Repr

/-- The arguments `__init__` hands to `FileFinder`: the attribute names and a
single min/max pair (`none` standing for `float("inf")`). -/
structure FileFinderCfg where
  filename_attr : String
  filesize_attr : String
  min_filesize : Int
  max_filesize : Option Int
deriving DecidableEq, Repr

/-- The `FileFinder(...)` construction of `__init__` (lines 40–44): the bounds
passed are `episode_filesize_min * 1_000_000` and
`episode_filesize_max * 1_000_000` (or infinity when the setting is `-1`). -/
def initFinder (ds : DownloadersSettings) : FileFinderCfg :=
  { filename_attr := "filename"
    filesize_attr := "filesize"
    min_filesize := ds.episode_filesize_min * 1000000
    max_filesize :=
      if ds.episode_filesize_max ≠ -1 then some (ds.episode_filesize_max * 1000000) else none }

/-- Modelled from the spec: the `FileFinder` of
`program.downloaders.shared` is not among the sources; per §4.3 every
candidate file must pass the filesize gate `size ∈ [min, max]` of the
configuration it was constructed with, an absent max meaning unbounded. -/
def sizeGate (cfg : FileFinderCfg) (size : Int) : Bool :=
  decide (cfg.min_filesize ≤ size) &&
    match cfg.max_filesize with
    | none => true
    | some m => decide (size ≤ m)

/-- Stated from the spec's words for comparison: a movie item's file is gated
by the movie min/max settings, `max = -1` meaning unbounded. -/
def movieGateSpec (ds : DownloadersSettings) (size : Int) : Bool :=
  decide (ds.movie_filesize_min * 1000000 ≤ size) &&
    (ds.movie_filesize_max == -1 || decide (size ≤ ds.movie_filesize_max * 1000000))

/-! ### Event classifiers -/

/-- Is this event a bulk availability query? -/
def isAvailQuery : Event → Bool
  | .availQuery _ => true
  | _ => false

/-- Is this event the availability query for exactly `hs`? -/
def isAvailQueryFor (hs : List String) : Event → Bool
  | .availQuery hs' => hs' == hs
  | _ => false

/-- Is this event an add-magnet call? -/
def isAddMagnet : Event → Bool
  | .addMagnetQuery _ => true
  | _ => false

/-- Is this event a select-files call? -/
def isSelect : Event → Bool
  | .selectQuery _ _ => true
  | _ => false

/-- Is this event a File Matcher invocation? -/
def isMatcherCall : Event → Bool
  | .matcherCall _ _ => true
  | _ => false

/-- Is this event a File Matcher invocation attributed to hash `h`? -/
def isMatcherFor (h : String) : Event → Bool
  | .matcherCall h' _ => h' == h
  | _ => false

/-- True unless the event is a matcher call that returned a non-empty match. -/
def matcherEmpty : Event → Bool
  | .matcherCall _ fs => fs.isEmpty
  | _ => true

/-- Does some container of this availability payload produce a non-empty
match for the item? -/
def hashHasMatch (fd : Item → List IdFile → List IdFile) (item : Item) :
    HashAvail → Bool
  | .other => false
  | .dict vs => (vs.map Prod.snd).any fun cl => cl.any fun c => !(fd item (tagContainer c)).isEmpty

/-- Did `run` succeed with `True`? -/
def isTrueOk : Except String (Bool × MediaItem) → Bool
  | .ok p => p.1
  | .error _ => false

/-- The blacklist of a successful `run` result. -/
def resultBlacklist : Except String (Bool × MediaItem) → List Stream
  | .ok p => p.2.blacklisted
  | .error _ => []

/-! ### Concrete instances used by witnesses and counterexamples -/

/-- A matcher that accepts every candidate list as-is. -/
def fdAll : Item → List IdFile → List IdFile := fun _ fs => fs

/-- An oracle whose every transport call raises. -/
def oExn : RDOracle :=
  { availResp := fun _ => .exn
    torrentsResp := fun _ => .exn
    torrentInfoResp := fun _ => .exn
    addMagnetResp := fun _ => .exn
    selectFilesResp := fun _ _ => .exn }

/-- The sample movie file of the spec's end-to-end scenario. -/
def movieFile : IdFile := ⟨7, "movie.mkv", 1200000000⟩

/-- One-container availability payload holding `movieFile`. -/
def availH3 : HashAvail := .dict [("rd", [[(7, ⟨"movie.mkv", 1200000000⟩)]])]

/-- Oracle for the happy-path witnesses: hash `"h3"` is cached, no account
torrent exists, the magnet becomes torrent `"T9"`. -/
def oHappy : RDOracle :=
  { availResp := fun hs => if hs = ["h3"] then .ok [("h3", availH3)] else .notOk
    torrentsResp := fun _ => .notOk
    torrentInfoResp := fun tid =>
      if tid = "T9" then .ok ⟨"Movie.Folder", "Movie.Orig", []⟩ else .notOk
    addMagnetResp := fun h => if h = "h3" then .ok "T9" else .exn
    selectFilesResp := fun _ _ => .ok () }

/-- A movie item with one blacklisted stream, one uncached stream, the cached
stream `"h3"`, and one stream after it. -/
def itemFour : MediaItem :=
  ⟨Item.movie {}, [⟨"h1"⟩, ⟨"h2"⟩, ⟨"h3"⟩, ⟨"h4"⟩], [⟨"h1"⟩]⟩

/-- Two account torrents sharing one info-hash (first in listing order). -/
def torrentA : TorrentRecord := ⟨"id1", "hh"⟩

/-- Two account torrents sharing one info-hash (second in listing order). -/
def torrentB : TorrentRecord := ⟨"id2", "hh"⟩

/-- Oracle whose account torrent list contains a duplicated info-hash. -/
def oDup : RDOracle :=
  { oExn with torrentsResp := fun l => if l = 1000 then .ok [torrentA, torrentB] else .exn }

/-- Oracle for the reuse-check witness: torrent `"T1"` with hash `"h1"` is on
the account, with one selected file matching the item. -/
def oReuse : RDOracle :=
  { oExn with
    torrentsResp := fun l => if l = 1000 then .ok [⟨"T1", "h1"⟩] else .exn
    torrentInfoResp := fun tid =>
      if tid = "T1" then .ok ⟨"Fold", "Orig", [⟨"dir/movie.mkv", 1200000000, 7, true⟩]⟩
      else .exn }

/-- Oracle for the C7 failing input: torrent `"T1"` with hash `"h1"` is on the
account but its info query fails, so `get_torrent_info` yields the empty
record. -/
def oInfoGone : RDOracle :=
  { oExn with
    torrentsResp := fun l => if l = 1000 then .ok [⟨"T1", "h1"⟩] else .exn
    torrentInfoResp := fun _ => .notOk }

/-! ## Lemmas about Python dict assignment -/

theorem lookup_dictSet {α : Type} (k k' : String) (v : α) (d : List (String × α)) :
    List.lookup k' (dictSet k v d) = if k' = k then some v else List.lookup k' d := by
  induction d with
  | nil =>
    by_cases h : k' = k
    · simp [dictSet, List.lookup, beq_iff_eq.mpr h, h]
    · simp [dictSet, List.lookup, beq_eq_false_iff_ne.mpr h, h]
  | cons p d ih =>
    obtain ⟨k₀, v₀⟩ := p
    by_cases h1 : k₀ = k
    · subst h1
      by_cases h2 : k' = k₀
      · simp [dictSet, List.lookup, beq_iff_eq.mpr h2, h2]
      · simp [dictSet, List.lookup, beq_eq_false_iff_ne.mpr h2, h2]
    · by_cases h2 : k' = k₀
      · subst h2
        simp [dictSet, if_neg h1, List.lookup, h1]
      · simp [dictSet, if_neg h1, List.lookup, beq_eq_false_iff_ne.mpr h2, h2, ih]

theorem mem_dictSet {α : Type} (k : String) (v : α) :
    ∀ (d : List (String × α)) (p : String × α), p ∈ dictSet k v d → p = (k, v) ∨ p ∈ d := by
  intro d
  induction d with
  | nil => intro p hp; simpa [dictSet] using hp
  | cons q d ih =>
    intro p hp
    obtain ⟨k₀, v₀⟩ := q
    by_cases h1 : k₀ = k
    · subst h1
      simp only [dictSet, if_true, eq_self_iff_true, List.mem_cons] at hp
      rcases hp with h | h
      · exact .inl h
      · exact .inr (List.mem_cons_of_mem _ h)
    · simp only [dictSet, if_neg h1, List.mem_cons] at hp
      rcases hp with h | h
      · exact .inr (by simp [h])
      · rcases ih p h with h' | h'
        · exact .inl h'
        · exact .inr (List.mem_cons_of_mem _ h')

theorem lookup_torrent_foldl (h : String) (ts : List TorrentRecord)
    (d0 : List (String × TorrentRecord)) :
    List.lookup h (ts.foldl (fun d t => dictSet t.hash t d) d0) =
      (ts.reverse.find? (fun t => t.hash == h)).or (List.lookup h d0) := by
  induction ts generalizing d0 with
  | nil => simp
  | cons t ts ih =>
    simp only [List.foldl_cons, List.reverse_cons]
    rw [ih, List.find?_append]
    cases hf : ts.reverse.find? (fun t => t.hash == h) with
    | some u => simp
    | none =>
      simp only [Option.none_or]
      rw [lookup_dictSet]
      by_cases h2 : h = t.hash
      · simp [List.find?, beq_iff_eq.mpr h2.symm, h2]
      · simp [List.find?, beq_eq_false_iff_ne.mpr (Ne.symm h2), h2]

/-! ## C5: which filesize bounds reach the matcher -/

/-- C5: the claim says the matcher's filesize gate uses the movie bounds for
movie items, but `__init__` constructs the `FileFinder` from the episode
bounds alone: the configuration is invariant under any change of the movie
settings, and a 5 GB file passes the constructed gate even though the
spec-side movie gate (max 1 MB) rejects it. -/
theorem claim_C5 :
    (∀ (ds : DownloadersSettings) (a b : Int),
      initFinder { ds with movie_filesize_min := a, movie_filesize_max := b } = initFinder ds) ∧
    sizeGate (initFinder ⟨0, 1, 0, -1⟩) 5000000000 = true ∧
    movieGateSpec ⟨0, 1, 0, -1⟩ 5000000000 = false :=
  ⟨fun _ _ _ => rfl, by decide, by decide⟩

/-- C5 witness: the invariance applied at concrete settings. -/
theorem claim_C5_witness :
    initFinder ⟨5, 6, 0, -1⟩ = initFinder ⟨9, 9, 0, -1⟩ ∧
    sizeGate (initFinder ⟨0, 1, 0, -1⟩) 5000000000 = true :=
  ⟨claim_C5.1 ⟨9, 9, 0, -1⟩ 5 6, claim_C5.2.1⟩

/-! ## C6: duplicate info-hashes in `get_torrents` -/

/-- C6 counterexample: with two listed torrents sharing hash `"hh"`, the
mapping keeps the second (`torrentB`), not the first as claimed. -/
theorem claim_C6_counterexample :
    List.lookup "hh" (get_torrents oDup 1000).1 = some torrentB ∧ torrentB ≠ torrentA := by
  constructor
  · rfl
  · decide

/-- C6 (amended): for a duplicated info-hash, `get_torrents` keeps the LAST
torrent in the provider's listing order (Python dict-comprehension semantics:
later assignments overwrite earlier ones). -/
theorem claim_C6 (o : RDOracle) (limit : Nat) (data : List TorrentRecord) (h : String)
    (hresp : o.torrentsResp limit = .ok data) :
    List.lookup h (get_torrents o limit).1 = data.reverse.find? (fun t => t.hash == h) := by
  unfold get_torrents
  rw [hresp]
  by_cases hd : data = []
  · subst hd; simp
  · simp only [if_neg hd]
    rw [lookup_torrent_foldl]
    simp

/-- C6 witness: the amended statement at the duplicated listing. -/
theorem claim_C6_witness :
    List.lookup "hh" (get_torrents oDup 1000).1 =
      [torrentA, torrentB].reverse.find? (fun t => t.hash == "hh") :=
  claim_C6 oDup 1000 [torrentA, torrentB] "hh" rfl

/-! ## C7: the download sequence on a failed torrent-info fetch -/

/-- C7: the claim says the download sequence never lets an exception escape
even when `get_torrent_info` returns an empty record; but with torrent `"T1"`
listed on the account and its info query failing, `torrent_is_downloaded`
evaluates `info["files"]` on the empty dict and the whole `download` raises
`KeyError`. -/
theorem claim_C7 :
    (download fdAll oInfoGone (Item.movie {}) "h1" [movieFile]).1 =
      Except.error "KeyError: files" := by
  rfl

/-! ## C8: empty input to `get_instant_availability` -/

/-- C8: an empty hash list yields the empty mapping, no network event, and an
error log. -/
theorem claim_C8 (o : RDOracle) :
    get_instant_availability o [] = ([], [Event.logError "No hashes found"]) :=
  rfl

/-- C8 witness: the all-raising oracle is never consulted. -/
theorem claim_C8_witness :
    get_instant_availability oExn [] = ([], [Event.logError "No hashes found"]) :=
  claim_C8 oExn

/-! ## C10: every API method swallows transport exceptions -/

/-- C10: when the transport call of each remote API method raises, the method
returns its default (`None`, `{}`, `{}`, `False`, `{}`) instead of
propagating. -/
theorem claim_C10 (o : RDOracle) (h : String) (hashes : List String) (rid : String)
    (tid : Option String) (container : List IdFile) (limit : Nat)
    (h1 : o.addMagnetResp h = .exn) (h2 : hashes ≠ [])
    (h3 : o.availResp hashes = .exn) (h4 : o.torrentInfoResp rid = .exn)
    (h5 : o.selectFilesResp tid (container.map IdFile.id) = .exn)
    (h6 : o.torrentsResp limit = .exn) :
    (add_magnet o h).1 = none ∧
    (get_instant_availability o hashes).1 = [] ∧
    (get_torrent_info o (some rid)).1 = none ∧
    (select_files o tid (some container)).1 = false ∧
    (get_torrents o limit).1 = [] := by
  refine ⟨?_, ?_, ?_, ?_, ?_⟩
  · simp [add_magnet, h1]
  · simp [get_instant_availability, h2, h3]
  · by_cases hr : rid = "" <;> simp [get_torrent_info, hr, h4]
  · simp [select_files, h5]
  · simp [get_torrents, h6]

/-- C10 witness: the defaults at the all-raising oracle. -/
theorem claim_C10_witness :
    (add_magnet oExn "h1").1 = none ∧
    (get_instant_availability oExn ["h1"]).1 = [] ∧
    (get_torrent_info oExn (some "T1")).1 = none ∧
    (select_files oExn (some "T1") (some [movieFile])).1 = false ∧
    (get_torrents oExn 1000).1 = [] :=
  claim_C10 oExn "h1" ["h1"] "T1" (some "T1") [movieFile] 1000
    rfl (by decide) rfl rfl rfl rfl

/-! ## Event classification facts -/

theorem not_matcher_of_matcherFalse {e : Event} (h : isMatcherCall e = false) :
    matcherEmpty e = true := by
  cases e <;> simp_all [isMatcherCall, matcherEmpty]

theorem avail_false_of_matcher {e : Event} (h : isMatcherCall e = true) :
    isAvailQuery e = false := by
  cases e <;> simp_all [isMatcherCall, isAvailQuery]

theorem matcherFor_false_of_not_matcher {h : String} {e : Event}
    (hm : isMatcherCall e = false) : isMatcherFor h e = false := by
  cases e <;> simp_all [isMatcherCall, isMatcherFor]

theorem eq_availQuery_of_availQueryFor {hs : List String} {e : Event}
    (h : isAvailQueryFor hs e = true) : e = .availQuery hs := by
  cases e <;> simp_all [isAvailQueryFor]

theorem addMagnet_false_of_matcher {e : Event} (h : isMatcherCall e = true) :
    isAddMagnet e = false := by
  cases e <;> simp_all [isMatcherCall, isAddMagnet]

/-! ## Events of `get_instant_availability` -/

theorem gia_event_shape (o : RDOracle) (streams : List String) :
    ∀ e ∈ (get_instant_availability o streams).2,
      isMatcherCall e = false ∧ isAddMagnet e = false ∧ isSelect e = false ∧
      ∀ hs, e = Event.availQuery hs → hs = streams := by
  intro e he
  unfold get_instant_availability at he
  by_cases h : streams = []
  · simp only [if_pos h] at he
    simp only [List.mem_singleton] at he
    subst he
    exact ⟨rfl, rfl, rfl, fun hs hy => by cases hy⟩
  · simp only [if_neg h] at he
    cases hav : o.availResp streams <;> rw [hav] at he <;>
      simp only [List.mem_singleton, List.mem_cons, List.mem_singleton,
        List.not_mem_nil, or_false] at he
    · subst he
      exact ⟨rfl, rfl, rfl, fun hs hy => by cases hy; rfl⟩
    · subst he
      exact ⟨rfl, rfl, rfl, fun hs hy => by cases hy; rfl⟩
    · rcases he with he | he <;> subst he
      · exact ⟨rfl, rfl, rfl, fun hs hy => by cases hy; rfl⟩
      · exact ⟨rfl, rfl, rfl, fun hs hy => by cases hy⟩

theorem gia_one_query (o : RDOracle) (streams : List String) (h : streams ≠ []) :
    (get_instant_availability o streams).2.countP isAvailQuery = 1 ∧
    Event.availQuery streams ∈ (get_instant_availability o streams).2 := by
  unfold get_instant_availability
  rw [if_neg h]
  cases o.availResp streams <;>
    simp [List.countP_cons, List.countP_nil, isAvailQuery]

/-! ## The `break_on_first` invariant of the scan loops -/

/-- What one scan level guarantees when `break_on_first` is set, relative to
the dict `d` it started from: only matcher events; if it did not return
early, the dict is unchanged and every match came back empty; if it did, the
events end with the single successful matcher call whose result was recorded. -/
def ScanOk (d : RDict) (r : RDict × List Event × Bool) : Prop :=
  (∀ e ∈ r.2.1, isMatcherCall e = true) ∧
  (r.2.2 = false → r.1 = d ∧ r.2.1.all matcherEmpty = true) ∧
  (r.2.2 = true → ∃ pre h' fs, fs ≠ [] ∧ r.2.1 = pre ++ [Event.matcherCall h' fs] ∧
    pre.all matcherEmpty = true ∧ r.1 = dictSet h' fs d)

theorem scanContainers_scanOk (fd : Item → List IdFile → List IdFile) (item : Item)
    (h : String) (d : RDict) :
    ∀ cs : List Container, ScanOk d (scanContainers fd item h true d cs) := by
  intro cs
  induction cs with
  | nil =>
    exact ⟨fun e he => absurd he (List.not_mem_nil e),
      fun _ => ⟨rfl, rfl⟩, fun hx => by cases hx⟩
  | cons c rest ih =>
    by_cases hfi : fd item (tagContainer c) = []
    · obtain ⟨ih1, ih2, ih3⟩ := ih
      simp only [scanContainers, if_pos hfi]
      refine ⟨?_, ?_, ?_⟩
      · intro e he
        rcases List.mem_cons.mp he with he | he
        · subst he; rfl
        · exact ih1 e he
      · intro hstop
        obtain ⟨hd, hall⟩ := ih2 hstop
        refine ⟨hd, ?_⟩
        simp only [List.all_cons, hall, Bool.and_true]
        simp [matcherEmpty, hfi]
      · intro hstop
        obtain ⟨pre, h', fs, hfs, hevs, hpre, hdict⟩ := ih3 hstop
        refine ⟨Event.matcherCall h (fd item (tagContainer c)) :: pre, h', fs, hfs, ?_, ?_, hdict⟩
        · simp [hevs]
        · simp only [List.all_cons, hpre, Bool.and_true]
          simp [matcherEmpty, hfi]
    · simp only [scanContainers, if_neg hfi]
      refine ⟨?_, ?_, ?_⟩
      · intro e he
        rcases List.mem_singleton.mp he with rfl
        rfl
      · intro hstop; cases hstop
      · intro _
        exact ⟨[], h, fd item (tagContainer c), hfi, by simp, rfl, rfl⟩

theorem scanVariants_scanOk (fd : Item → List IdFile → List IdFile) (item : Item)
    (h : String) :
    ∀ (cls : List (List Container)) (d : RDict), ScanOk d (scanVariants fd item h true d cls) := by
  intro cls
  induction cls with
  | nil =>
    exact fun d => ⟨fun e he => absurd he (List.not_mem_nil e),
      fun _ => ⟨rfl, rfl⟩, fun hx => by cases hx⟩
  | cons cl rest ih =>
    intro d
    obtain ⟨c1, c2, c3⟩ := scanContainers_scanOk fd item h d cl
    simp only [scanVariants]
    cases hstop : (scanContainers fd item h true d cl).2.2 with
    | true =>
      rw [if_pos rfl]
      refine ⟨c1, ?_, ?_⟩
      · intro hx; simp at hx
      · intro _; exact c3 hstop
    | false =>
      rw [if_neg (by simp)]
      obtain ⟨hd, hall⟩ := c2 hstop
      obtain ⟨v1, v2, v3⟩ := ih (scanContainers fd item h true d cl).1
      refine ⟨?_, ?_, ?_⟩
      · intro e he
        rcases List.mem_append.mp he with he | he
        · exact c1 e he
        · exact v1 e he
      · intro hstop2
        obtain ⟨hd2, hall2⟩ := v2 hstop2
        exact ⟨hd2.trans hd, by simp [List.all_append, hall, hall2]⟩
      · intro hstop2
        obtain ⟨pre, h', fs, hfs, hevs, hpre, hdict⟩ := v3 hstop2
        refine ⟨(scanContainers fd item h true d cl).2.1 ++ pre, h', fs, hfs, ?_, ?_, ?_⟩
        · simp [hevs]
        · simp [List.all_append, hall, hpre]
        · rw [hdict, hd]

theorem scanHashes_scanOk (fd : Item → List IdFile → List IdFile) (item : Item) :
    ∀ (l : List (String × HashAvail)) (d : RDict), ScanOk d (scanHashes fd item true d l) := by
  intro l
  induction l with
  | nil =>
    exact fun d => ⟨fun e he => absurd he (List.not_mem_nil e),
      fun _ => ⟨rfl, rfl⟩, fun hx => by cases hx⟩
  | cons q rest ih =>
    intro d
    obtain ⟨h, hv⟩ := q
    cases hv with
    | other => simpa only [scanHashes] using ih d
    | dict vs =>
      obtain ⟨c1, c2, c3⟩ := scanVariants_scanOk fd item h (vs.map Prod.snd) d
      simp only [scanHashes]
      cases hstop : (scanVariants fd item h true d (vs.map Prod.snd)).2.2 with
      | true =>
        rw [if_pos rfl]
        refine ⟨c1, ?_, ?_⟩
        · intro hx; simp at hx
        · intro _; exact c3 hstop
      | false =>
        rw [if_neg (by simp)]
        obtain ⟨hd, hall⟩ := c2 hstop
        obtain ⟨v1, v2, v3⟩ := ih (scanVariants fd item h true d (vs.map Prod.snd)).1
        refine ⟨?_, ?_, ?_⟩
        · intro e he
          rcases List.mem_append.mp he with he | he
          · exact c1 e he
          · exact v1 e he
        · intro hstop2
          obtain ⟨hd2, hall2⟩ := v2 hstop2
          exact ⟨hd2.trans hd, by simp [List.all_append, hall, hall2]⟩
        · intro hstop2
          obtain ⟨pre, h', fs, hfs, hevs, hpre, hdict⟩ := v3 hstop2
          refine ⟨(scanVariants fd item h true d (vs.map Prod.snd)).2.1 ++ pre, h', fs, hfs, ?_, ?_, ?_⟩
          · simp [hevs]
          · simp [List.all_append, hall, hpre]
          · rw [hdict, hd]

/-! ## C1: `is_cached` under `break_on_first` -/

/-- C1: with a non-empty hash list and `break_on_first`, `is_cached` issues
exactly one bulk availability query (for the whole list), returns at most one
hash-to-files entry, and every matcher call other than (possibly) the very
last event of the trace came back empty — i.e. the first non-empty match is
the last thing that happens. -/
theorem claim_C1 (fd : Item → List IdFile → List IdFile) (o : RDOracle) (item : Item)
    (streams : List String) (hne : streams ≠ []) :
    (is_cached fd o item streams true).2.countP isAvailQuery = 1 ∧
    Event.availQuery streams ∈ (is_cached fd o item streams true).2 ∧
    (is_cached fd o item streams true).1.length ≤ 1 ∧
    (is_cached fd o item streams true).2.dropLast.all matcherEmpty = true := by
  obtain ⟨hcount, hmem⟩ := gia_one_query o streams hne
  have hgiaE : ∀ e ∈ (get_instant_availability o streams).2, matcherEmpty e = true :=
    fun e he => not_matcher_of_matcherFalse ((gia_event_shape o streams e he).1)
  unfold is_cached
  by_cases hempty : (get_instant_availability o streams).1 = []
  · simp only [if_pos hempty]
    refine ⟨hcount, hmem, by simp, ?_⟩
    exact List.all_eq_true.mpr fun e he => hgiaE e (List.dropLast_subset _ he)
  · simp only [if_neg hempty]
    obtain ⟨s1, s2, s3⟩ :=
      scanHashes_scanOk fd item (get_instant_availability o streams).1 []
    refine ⟨?_, ?_, ?_, ?_⟩
    · rw [List.countP_append, hcount]
      have : (scanHashes fd item true [] (get_instant_availability o streams).1).2.1.countP
          isAvailQuery = 0 :=
        List.countP_eq_zero.mpr fun e he => by simp [avail_false_of_matcher (s1 e he)]
      omega
    · exact List.mem_append.mpr (.inl hmem)
    · by_cases hstop : (scanHashes fd item true [] (get_instant_availability o streams).1).2.2
      · obtain ⟨pre, h', fs, _, _, _, hdict⟩ := s3 hstop
        simp [hdict, dictSet]
      · simp only [Bool.not_eq_true] at hstop
        obtain ⟨hd, _⟩ := s2 hstop
        simp [hd]
    · by_cases hstop : (scanHashes fd item true [] (get_instant_availability o streams).1).2.2
      · obtain ⟨pre, h', fs, _, hevs, hpre, _⟩ := s3 hstop
        have h1 : (get_instant_availability o streams).2.all matcherEmpty = true :=
          List.all_eq_true.mpr hgiaE
        rw [hevs, ← List.append_assoc, List.dropLast_concat, List.all_append, h1, hpre]
        rfl
      · simp only [Bool.not_eq_true] at hstop
        obtain ⟨_, hall⟩ := s2 hstop
        refine List.all_eq_true.mpr fun e he => ?_
        rcases List.mem_append.mp (List.dropLast_subset _ he) with he | he
        · exact hgiaE e he
        · exact List.all_eq_true.mp hall e he

/-- C1 witness: the happy-path oracle at the singleton list `["h3"]`. -/
theorem claim_C1_witness :
    (is_cached fdAll oHappy (Item.movie {}) ["h3"] true).2.countP isAvailQuery = 1 ∧
    Event.availQuery ["h3"] ∈ (is_cached fdAll oHappy (Item.movie {}) ["h3"] true).2 ∧
    (is_cached fdAll oHappy (Item.movie {}) ["h3"] true).1.length ≤ 1 ∧
    (is_cached fdAll oHappy (Item.movie {}) ["h3"] true).2.dropLast.all matcherEmpty = true :=
  claim_C1 fdAll oHappy (Item.movie {}) ["h3"] (by decide)

/-! ## C2: no false positives in `is_cached` -/

theorem scanContainers_mem (fd : Item → List IdFile → List IdFile) (item : Item)
    (h : String) (bof : Bool) :
    ∀ (cs : List Container) (d : RDict) (p : String × List IdFile),
      p ∈ (scanContainers fd item h bof d cs).1 →
      p ∈ d ∨ (p.1 = h ∧ p.2 ≠ [] ∧
        cs.any (fun c => !(fd item (tagContainer c)).isEmpty) = true) := by
  intro cs
  induction cs with
  | nil => intro d p hp; exact .inl hp
  | cons c rest ih =>
    intro d p hp
    by_cases hfi : fd item (tagContainer c) = []
    · simp only [scanContainers, if_pos hfi] at hp
      rcases ih d p hp with hp' | ⟨h1, h2, h3⟩
      · exact .inl hp'
      · exact .inr ⟨h1, h2, by simp [List.any_cons, h3]⟩
    · simp only [scanContainers, if_neg hfi] at hp
      rcases mem_dictSet h (fd item (tagContainer c)) d p hp with hp' | hp'
      · refine .inr ⟨by simp [hp'], by simp [hp', hfi], ?_⟩
        simp [List.any_cons, List.isEmpty_iff, hfi]
      · exact .inl hp'

theorem scanVariants_mem (fd : Item → List IdFile → List IdFile) (item : Item)
    (h : String) (bof : Bool) :
    ∀ (cls : List (List Container)) (d : RDict) (p : String × List IdFile),
      p ∈ (scanVariants fd item h bof d cls).1 →
      p ∈ d ∨ (p.1 = h ∧ p.2 ≠ [] ∧
        cls.any (fun cl => cl.any fun c => !(fd item (tagContainer c)).isEmpty) = true) := by
  intro cls
  induction cls with
  | nil => intro d p hp; exact .inl hp
  | cons cl rest ih =>
    intro d p hp
    simp only [scanVariants] at hp
    by_cases hstop : (scanContainers fd item h bof d cl).2.2 = true
    · rw [if_pos hstop] at hp
      rcases scanContainers_mem fd item h bof cl d p hp with hp' | ⟨h1, h2, h3⟩
      · exact .inl hp'
      · exact .inr ⟨h1, h2, by simp [List.any_cons, h3]⟩
    · rw [if_neg hstop] at hp
      rcases ih (scanContainers fd item h bof d cl).1 p hp with hp' | ⟨h1, h2, h3⟩
      · rcases scanContainers_mem fd item h bof cl d p hp' with hp'' | ⟨h1, h2, h3⟩
        · exact .inl hp''
        · exact .inr ⟨h1, h2, by simp [List.any_cons, h3]⟩
      · exact .inr ⟨h1, h2, by simp [List.any_cons, h3]⟩

theorem scanHashes_mem (fd : Item → List IdFile → List IdFile) (item : Item) (bof : Bool) :
    ∀ (l : List (String × HashAvail)) (d : RDict) (p : String × List IdFile),
      p ∈ (scanHashes fd item bof d l).1 →
      p ∈ d ∨ (p.2 ≠ [] ∧
        l.any (fun q => q.1 == p.1 && hashHasMatch fd item q.2) = true) := by
  intro l
  induction l with
  | nil => intro d p hp; exact .inl hp
  | cons q rest ih =>
    intro d p hp
    obtain ⟨h, hv⟩ := q
    cases hv with
    | other =>
      simp only [scanHashes] at hp
      rcases ih d p hp with hp' | ⟨h2, h3⟩
      · exact .inl hp'
      · exact .inr ⟨h2, by simp [List.any_cons, h3]⟩
    | dict vs =>
      simp only [scanHashes] at hp
      by_cases hstop : (scanVariants fd item h bof d (vs.map Prod.snd)).2.2 = true
      · rw [if_pos hstop] at hp
        rcases scanVariants_mem fd item h bof (vs.map Prod.snd) d p hp with hp' | ⟨h1, h2, h3⟩
        · exact .inl hp'
        · refine .inr ⟨h2, ?_⟩
          simp [List.any_cons, hashHasMatch, beq_iff_eq.mpr h1.symm, h3]
      · rw [if_neg hstop] at hp
        rcases ih (scanVariants fd item h bof d (vs.map Prod.snd)).1 p hp with hp' | ⟨h2, h3⟩
        · rcases scanVariants_mem fd item h bof (vs.map Prod.snd) d p hp' with hp'' | ⟨h1, h2, h3⟩
          · exact .inl hp''
          · refine .inr ⟨h2, ?_⟩
            simp [List.any_cons, hashHasMatch, beq_iff_eq.mpr h1.symm, h3]
        · exact .inr ⟨h2, by simp [List.any_cons, h3]⟩

/-- C2: every entry of the dict returned by `is_cached` has a non-empty
matched file list, and its hash has some reported container with a non-empty
match — a hash all of whose containers fail the matcher is never a key. -/
theorem claim_C2 (fd : Item → List IdFile → List IdFile) (o : RDOracle) (item : Item)
    (streams : List String) (bof : Bool) (p : String × List IdFile)
    (hp : p ∈ (is_cached fd o item streams bof).1) :
    p.2 ≠ [] ∧
    (get_instant_availability o streams).1.any
      (fun q => q.1 == p.1 && hashHasMatch fd item q.2) = true := by
  unfold is_cached at hp
  by_cases hempty : (get_instant_availability o streams).1 = []
  · rw [if_pos hempty] at hp
    exact absurd hp (List.not_mem_nil p)
  · rw [if_neg hempty] at hp
    rcases scanHashes_mem fd item bof (get_instant_availability o streams).1 [] p hp with
      hp' | hgood
    · exact absurd hp' (List.not_mem_nil p)
    · exact hgood

/-- C2 witness: the entry produced by the happy-path oracle. -/
theorem claim_C2_witness :
    ("h3", [movieFile]).2 ≠ [] ∧
    (get_instant_availability oHappy ["h3"]).1.any
      (fun q => q.1 == ("h3", [movieFile]).1 && hashHasMatch fdAll (Item.movie {}) q.2) = true :=
  claim_C2 fdAll oHappy (Item.movie {}) ["h3"] true ("h3", [movieFile]) (by decide)

/-! ## C9: non-dict payloads are skipped without effect -/

theorem scanHashes_skip (fd : Item → List IdFile → List IdFile) (item : Item) (bof : Bool)
    (h : String) (l2 : List (String × HashAvail)) :
    ∀ (l1 : List (String × HashAvail)) (d : RDict),
      scanHashes fd item bof d (l1 ++ (h, HashAvail.other) :: l2) =
        scanHashes fd item bof d (l1 ++ l2) := by
  intro l1
  induction l1 with
  | nil => intro d; simp only [List.nil_append, scanHashes]
  | cons q rest ih =>
    intro d
    obtain ⟨h', hv⟩ := q
    cases hv with
    | other => simpa only [List.cons_append, scanHashes] using ih d
    | dict vs =>
      simp only [List.cons_append, scanHashes, List.append_eq]
      rw [ih]

theorem scanContainers_matcherFor (fd : Item → List IdFile → List IdFile) (item : Item)
    (h h' : String) (bof : Bool) (hne : h' ≠ h) :
    ∀ (cs : List Container) (d : RDict),
      ∀ e ∈ (scanContainers fd item h' bof d cs).2.1, isMatcherFor h e = false := by
  intro cs
  induction cs with
  | nil => intro d e he; exact absurd he (List.not_mem_nil e)
  | cons c rest ih =>
    intro d e he
    by_cases hfi : fd item (tagContainer c) = []
    · simp only [scanContainers, if_pos hfi] at he
      rcases List.mem_cons.mp he with he | he
      · subst he; simp [isMatcherFor, beq_eq_false_iff_ne.mpr hne]
      · exact ih d e he
    · simp only [scanContainers, if_neg hfi] at he
      rcases List.mem_singleton.mp he with rfl
      simp [isMatcherFor, beq_eq_false_iff_ne.mpr hne]

theorem scanVariants_matcherFor (fd : Item → List IdFile → List IdFile) (item : Item)
    (h h' : String) (bof : Bool) (hne : h' ≠ h) :
    ∀ (cls : List (List Container)) (d : RDict),
      ∀ e ∈ (scanVariants fd item h' bof d cls).2.1, isMatcherFor h e = false := by
  intro cls
  induction cls with
  | nil => intro d e he; exact absurd he (List.not_mem_nil e)
  | cons cl rest ih =>
    intro d e he
    simp only [scanVariants] at he
    by_cases hstop : (scanContainers fd item h' bof d cl).2.2 = true
    · rw [if_pos hstop] at he
      exact scanContainers_matcherFor fd item h h' bof hne cl d e he
    · rw [if_neg hstop] at he
      rcases List.mem_append.mp he with he | he
      · exact scanContainers_matcherFor fd item h h' bof hne cl d e he
      · exact ih (scanContainers fd item h' bof d cl).1 e he

theorem scanHashes_matcherFor (fd : Item → List IdFile → List IdFile) (item : Item)
    (bof : Bool) (h : String) :
    ∀ (l : List (String × HashAvail)) (d : RDict), h ∉ l.map Prod.fst →
      ∀ e ∈ (scanHashes fd item bof d l).2.1, isMatcherFor h e = false := by
  intro l
  induction l with
  | nil => intro d _ e he; exact absurd he (List.not_mem_nil e)
  | cons q rest ih =>
    intro d hfresh e he
    obtain ⟨h', hv⟩ := q
    have hne : h' ≠ h := fun hx => hfresh (by simp [hx])
    have hfresh' : h ∉ rest.map Prod.fst := fun hx => hfresh (by simp [hx])
    cases hv with
    | other =>
      simp only [scanHashes] at he
      exact ih d hfresh' e he
    | dict vs =>
      simp only [scanHashes] at he
      by_cases hstop : (scanVariants fd item h' bof d (vs.map Prod.snd)).2.2 = true
      · rw [if_pos hstop] at he
        exact scanVariants_matcherFor fd item h h' bof hne (vs.map Prod.snd) d e he
      · rw [if_neg hstop] at he
        rcases List.mem_append.mp he with he | he
        · exact scanVariants_matcherFor fd item h h' bof hne (vs.map Prod.snd) d e he
        · exact ih (scanVariants fd item h' bof d (vs.map Prod.snd)).1 hfresh' e he

/-- C9: a hash whose availability payload is not dict-shaped is skipped for
that hash only: `is_cached` behaves exactly as if the entry were absent, no
matcher call is attributed to that hash, and it never becomes a key of the
result. -/
theorem claim_C9 (fd : Item → List IdFile → List IdFile) (item : Item)
    (streams : List String) (bof : Bool) (h : String)
    (l1 l2 : List (String × HashAvail)) (o o' : RDOracle)
    (ho : o.availResp streams = .ok (l1 ++ (h, HashAvail.other) :: l2))
    (ho' : o'.availResp streams = .ok (l1 ++ l2))
    (hfresh : h ∉ (l1 ++ l2).map Prod.fst) :
    is_cached fd o item streams bof = is_cached fd o' item streams bof ∧
    (is_cached fd o item streams bof).2.countP (isMatcherFor h) = 0 ∧
    h ∉ (is_cached fd o item streams bof).1.map Prod.fst := by
  by_cases hs : streams = []
  · subst hs
    refine ⟨rfl, ?_, ?_⟩ <;> simp [is_cached, get_instant_availability, isMatcherFor]
  · have hgia : get_instant_availability o streams =
        (l1 ++ (h, HashAvail.other) :: l2, [.availQuery streams]) := by
      unfold get_instant_availability
      rw [if_neg hs, ho]
    have hgia' : get_instant_availability o' streams =
        (l1 ++ l2, [.availQuery streams]) := by
      unfold get_instant_availability
      rw [if_neg hs, ho']
    have heq : is_cached fd o item streams bof = is_cached fd o' item streams bof := by
      unfold is_cached
      rw [hgia, hgia']
      by_cases h12 : l1 ++ l2 = []
      · rcases List.append_eq_nil.mp h12 with ⟨rfl, rfl⟩
        simp [scanHashes]
      · rw [if_neg (by simp), if_neg h12, scanHashes_skip]
    refine ⟨heq, ?_, ?_⟩
    · rw [heq]
      unfold is_cached
      rw [hgia']
      by_cases h12 : l1 ++ l2 = []
      · simp [h12, isMatcherFor]
      · rw [if_neg h12]
        refine List.countP_eq_zero.mpr fun e he => ?_
        simp only [Bool.not_eq_true]
        rcases List.mem_append.mp he with he | he
        · rcases List.mem_singleton.mp he with rfl
          rfl
        · exact scanHashes_matcherFor fd item bof h (l1 ++ l2) [] hfresh e he
    · rw [heq]
      unfold is_cached
      rw [hgia']
      by_cases h12 : l1 ++ l2 = []
      · simp [h12]
      · rw [if_neg h12]
        intro hmem
        rcases List.mem_map.mp hmem with ⟨p, hp, hph⟩
        rcases scanHashes_mem fd item bof (l1 ++ l2) [] p hp with hp' | ⟨_, hany⟩
        · exact absurd hp' (List.not_mem_nil p)
        · rcases List.any_eq_true.mp hany with ⟨q, hq, hqh⟩
          have : q.1 = p.1 := by
            have := Bool.and_eq_true_iff.mp hqh
            exact beq_iff_eq.mp this.1
          exact hfresh (by
            rw [← hph, ← this]
            exact List.mem_map.mpr ⟨q, hq, rfl⟩)

/-- C9 witness: a concrete malformed entry between two well-formed responses. -/
theorem claim_C9_witness :
    is_cached fdAll
        { oHappy with availResp := fun hs =>
            if hs = ["ha", "hx"] then .ok [("ha", availH3), ("hx", HashAvail.other)]
            else .notOk }
        (Item.movie {}) ["ha", "hx"] true =
      is_cached fdAll
        { oHappy with availResp := fun hs =>
            if hs = ["ha", "hx"] then .ok [("ha", availH3)] else .notOk }
        (Item.movie {}) ["ha", "hx"] true ∧
    (is_cached fdAll
        { oHappy with availResp := fun hs =>
            if hs = ["ha", "hx"] then .ok [("ha", availH3), ("hx", HashAvail.other)]
            else .notOk }
        (Item.movie {}) ["ha", "hx"] true).2.countP (isMatcherFor "hx") = 0 ∧
    "hx" ∉ (is_cached fdAll
        { oHappy with availResp := fun hs =>
            if hs = ["ha", "hx"] then .ok [("ha", availH3), ("hx", HashAvail.other)]
            else .notOk }
        (Item.movie {}) ["ha", "hx"] true).1.map Prod.fst :=
  claim_C9 fdAll (Item.movie {}) ["ha", "hx"] true "hx" [("ha", availH3)] []
    _ _ (by decide) (by decide) (by decide)

/-! ## C3: reuse of an already-downloaded torrent -/

theorem gt_event_shape (o : RDOracle) (limit : Nat) :
    ∀ e ∈ (get_torrents o limit).2,
      isAddMagnet e = false ∧ isSelect e = false ∧ isAvailQuery e = false := by
  intro e he
  unfold get_torrents at he
  cases hres : o.torrentsResp limit with
  | ok data =>
    rw [hres] at he
    by_cases hd : data = []
    · simp [hd] at he
      subst he; exact ⟨rfl, rfl, rfl⟩
    · simp [hd] at he
      subst he; exact ⟨rfl, rfl, rfl⟩
  | notOk =>
    rw [hres] at he
    simp at he
    subst he; exact ⟨rfl, rfl, rfl⟩
  | exn =>
    rw [hres] at he
    simp at he
    rcases he with rfl | rfl <;> exact ⟨rfl, rfl, rfl⟩

theorem gi_event_shape (o : RDOracle) (tid : Option String) :
    ∀ e ∈ (get_torrent_info o tid).2,
      isAddMagnet e = false ∧ isSelect e = false ∧ isAvailQuery e = false := by
  intro e he
  cases tid with
  | none =>
    unfold get_torrent_info at he
    simp at he
    subst he; exact ⟨rfl, rfl, rfl⟩
  | some rid =>
    unfold get_torrent_info at he
    by_cases hr : rid = ""
    · simp only [if_pos hr] at he
      simp at he
      subst he; exact ⟨rfl, rfl, rfl⟩
    · simp only [if_neg hr] at he
      cases hres : o.torrentInfoResp rid <;> rw [hres] at he <;> simp at he
      · subst he; exact ⟨rfl, rfl, rfl⟩
      · subst he; exact ⟨rfl, rfl, rfl⟩
      · rcases he with rfl | rfl <;> exact ⟨rfl, rfl, rfl⟩

/-- `set_active_files` produces exactly the events of its torrent-info fetch. -/
theorem saf_events (fd : Item → List IdFile → List IdFile) (o : RDOracle) (item : Item)
    (tid : Option String) (c : Option (List IdFile)) :
    (set_active_files fd o item tid c).2 = (get_torrent_info o tid).2 :=
  rfl

theorem tid_event_shape (fd : Item → List IdFile → List IdFile) (o : RDOracle)
    (item : Item) (h : String) :
    ∀ e ∈ (torrent_is_downloaded fd o item h).2,
      isAddMagnet e = false ∧ isSelect e = false ∧ isAvailQuery e = false := by
  intro e he
  unfold torrent_is_downloaded at he
  match hlk : List.lookup h (get_torrents o 1000).1 with
  | none =>
    rw [hlk] at he
    simp only [List.mem_cons, List.mem_append, List.mem_singleton, List.not_mem_nil,
      or_false] at he
    rcases he with (rfl | he) | rfl
    · exact ⟨rfl, rfl, rfl⟩
    · exact gt_event_shape o 1000 e he
    · exact ⟨rfl, rfl, rfl⟩
  | some torrent =>
    rw [hlk] at he
    simp only [] at he
    match hif : infoFiles (get_torrent_info o (some torrent.id)).1 with
    | .error msg =>
      rw [hif] at he
      simp only [List.mem_cons, List.mem_append] at he
      rcases he with (rfl | he) | he
      · exact ⟨rfl, rfl, rfl⟩
      · exact gt_event_shape o 1000 e he
      · exact gi_event_shape o (some torrent.id) e he
    | .ok files =>
      rw [hif] at he
      simp only [] at he
      by_cases hfe : files = []
      · rw [if_pos hfe] at he
        simp only [List.mem_cons, List.mem_append, List.mem_singleton, List.not_mem_nil,
          or_false] at he
        rcases he with ((rfl | he) | he) | rfl
        · exact ⟨rfl, rfl, rfl⟩
        · exact gt_event_shape o 1000 e he
        · exact gi_event_shape o (some torrent.id) e he
        · exact ⟨rfl, rfl, rfl⟩
      · rw [if_neg hfe] at he
        by_cases hmatch : fd item (selectedFiles files) = []
        · rw [if_pos hmatch] at he
          simp only [List.mem_cons, List.mem_append] at he
          rcases he with (rfl | he) | he
          · exact ⟨rfl, rfl, rfl⟩
          · exact gt_event_shape o 1000 e he
          · exact gi_event_shape o (some torrent.id) e he
        · rw [if_neg hmatch] at he
          simp only [List.mem_cons, List.mem_append] at he
          rcases he with (rfl | he) | he
          · exact ⟨rfl, rfl, rfl⟩
          · exact gt_event_shape o 1000 e he
          · exact gi_event_shape o (some torrent.id) e he

/-- Under the reuse conditions, `torrent_is_downloaded` returns the listed
torrent's id. -/
theorem tid_found (fd : Item → List IdFile → List IdFile) (o : RDOracle) (item : Item)
    (h : String) (tr : TorrentRecord) (info : TorrentInfo)
    (h1 : List.lookup h (get_torrents o 1000).1 = some tr)
    (h2 : tr.id ≠ "")
    (h3 : o.torrentInfoResp tr.id = .ok info)
    (h4 : info.files ≠ [])
    (h5 : fd item (selectedFiles info.files) ≠ []) :
    (torrent_is_downloaded fd o item h).1 = .ok (some tr.id) := by
  have hgi : get_torrent_info o (some tr.id) = (some info, [.infoQuery tr.id]) := by
    simp only [get_torrent_info]
    rw [if_neg h2, h3]
  unfold torrent_is_downloaded
  rw [h1]
  simp only []
  rw [hgi]
  simp [infoFiles, h4, h5]

/-- C3: if the account torrent list maps the chosen hash to a torrent whose
info is fetchable and whose selected files still satisfy the matcher, then
`torrent_is_downloaded` returns that torrent's id, and `download` binds via
`set_active_files` without ever calling add-magnet or select-files. -/
theorem claim_C3 (fd : Item → List IdFile → List IdFile) (o : RDOracle) (item : Item)
    (h : String) (container : List IdFile) (tr : TorrentRecord) (info : TorrentInfo)
    (h1 : List.lookup h (get_torrents o 1000).1 = some tr)
    (h2 : tr.id ≠ "")
    (h3 : o.torrentInfoResp tr.id = .ok info)
    (h4 : info.files ≠ [])
    (h5 : fd item (selectedFiles info.files) ≠ []) :
    (torrent_is_downloaded fd o item h).1 = .ok (some tr.id) ∧
    (download fd o item h container).2.countP isAddMagnet = 0 ∧
    (download fd o item h container).2.countP isSelect = 0 ∧
    (download fd o item h container).1 =
      (set_active_files fd o item (some tr.id) (some container)).1 := by
  have htid := tid_found fd o item h tr info h1 h2 h3 h4 h5
  have htruthy : truthyId (some tr.id) = true := by
    simp [truthyId, h2]
  have hev : ∀ e ∈ (download fd o item h container).2,
      isAddMagnet e = false ∧ isSelect e = false := by
    intro e he
    unfold download at he
    rw [htid] at he
    simp only [] at he
    rw [htruthy, if_pos rfl] at he
    match hsaf : (set_active_files fd o item (some tr.id) (some container)).1 with
    | .ok item' =>
      rw [hsaf] at he
      simp only [List.mem_append, List.mem_singleton] at he
      rcases he with (he | he) | rfl
      · have := tid_event_shape fd o item h e he
        exact ⟨this.1, this.2.1⟩
      · rw [saf_events] at he
        have := gi_event_shape o (some tr.id) e he
        exact ⟨this.1, this.2.1⟩
      · exact ⟨rfl, rfl⟩
    | .error msg =>
      rw [hsaf] at he
      simp only [List.mem_append] at he
      rcases he with he | he
      · have := tid_event_shape fd o item h e he
        exact ⟨this.1, this.2.1⟩
      · rw [saf_events] at he
        have := gi_event_shape o (some tr.id) e he
        exact ⟨this.1, this.2.1⟩
  refine ⟨htid, ?_, ?_, ?_⟩
  · exact List.countP_eq_zero.mpr fun e he => by simp [(hev e he).1]
  · exact List.countP_eq_zero.mpr fun e he => by simp [(hev e he).2]
  · unfold download
    rw [htid]
    simp only []
    rw [htruthy, if_pos rfl]
    match hsaf : (set_active_files fd o item (some tr.id) (some container)).1 with
    | .ok item' => rfl
    | .error msg => rfl

/-- C3 witness: torrent `"T1"` already on the account with a selected,
matching file. -/
theorem claim_C3_witness :
    (torrent_is_downloaded fdAll oReuse (Item.movie {}) "h1").1 = .ok (some "T1") ∧
    (download fdAll oReuse (Item.movie {}) "h1" [movieFile]).2.countP isAddMagnet = 0 ∧
    (download fdAll oReuse (Item.movie {}) "h1" [movieFile]).2.countP isSelect = 0 ∧
    (download fdAll oReuse (Item.movie {}) "h1" [movieFile]).1 =
      (set_active_files fdAll oReuse (Item.movie {}) (some "T1") (some [movieFile])).1 :=
  claim_C3 fdAll oReuse (Item.movie {}) "h1" [movieFile]
    ⟨"T1", "h1"⟩ ⟨"Fold", "Orig", [⟨"dir/movie.mkv", 1200000000, 7, true⟩]⟩
    (by decide) (by decide) (by decide) (by decide) (by decide)

/-! ## C4: `run` over the stream list -/

theorem availFor_imp {hs : List String} {e : Event}
    (h : isAvailQueryFor hs e = true) : isAvailQuery e = true := by
  cases e <;> simp_all [isAvailQueryFor, isAvailQuery]

theorem am_event_shape (o : RDOracle) (h : String) :
    ∀ e ∈ (add_magnet o h).2, isAvailQuery e = false := by
  intro e he
  unfold add_magnet at he
  cases hres : o.addMagnetResp h <;> rw [hres] at he <;> simp at he
  · subst he; rfl
  · rcases he with rfl | rfl <;> rfl
  · rcases he with rfl | rfl <;> rfl

theorem sf_event_shape (o : RDOracle) (tid : Option String) (c : Option (List IdFile)) :
    ∀ e ∈ (select_files o tid c).2, isAvailQuery e = false := by
  intro e he
  unfold select_files at he
  cases c with
  | none => simp at he; subst he; rfl
  | some files =>
    simp only [] at he
    cases hres : o.selectFilesResp tid (files.map IdFile.id) <;> rw [hres] at he <;> simp at he
    · subst he; rfl
    · subst he; rfl
    · rcases he with rfl | rfl <;> rfl

theorem download_no_avail (fd : Item → List IdFile → List IdFile) (o : RDOracle)
    (item : Item) (s : String) (c : List IdFile) :
    ∀ e ∈ (download fd o item s c).2, isAvailQuery e = false := by
  intro e he
  unfold download at he
  match htd : (torrent_is_downloaded fd o item s).1 with
  | .error msg =>
    rw [htd] at he
    simp only [] at he
    exact (tid_event_shape fd o item s e he).2.2
  | .ok tid? =>
    rw [htd] at he
    simp only [] at he
    by_cases htr : truthyId tid? = true
    · rw [if_pos htr] at he
      match hsaf : (set_active_files fd o item tid? (some c)).1 with
      | .ok item' =>
        rw [hsaf] at he
        simp only [List.mem_append, List.mem_singleton] at he
        rcases he with (he | he) | rfl
        · exact (tid_event_shape fd o item s e he).2.2
        · rw [saf_events] at he
          exact (gi_event_shape o tid? e he).2.2
        · rfl
      | .error msg =>
        rw [hsaf] at he
        simp only [List.mem_append] at he
        rcases he with he | he
        · exact (tid_event_shape fd o item s e he).2.2
        · rw [saf_events] at he
          exact (gi_event_shape o tid? e he).2.2
    · rw [if_neg htr] at he
      match hsaf : (set_active_files fd o item (add_magnet o s).1 (some c)).1 with
      | .ok item' =>
        rw [hsaf] at he
        simp only [List.mem_append, List.mem_singleton, List.mem_cons, List.not_mem_nil,
          or_false] at he
        rcases he with ((((he | he) | rfl) | he) | he) | rfl
        · exact (tid_event_shape fd o item s e he).2.2
        · exact am_event_shape o s e he
        · rfl
        · exact sf_event_shape o (add_magnet o s).1 (some c) e he
        · rw [saf_events] at he
          exact (gi_event_shape o (add_magnet o s).1 e he).2.2
        · rfl
      | .error msg =>
        rw [hsaf] at he
        simp only [List.mem_append, List.mem_singleton, List.mem_cons, List.not_mem_nil,
          or_false] at he
        rcases he with (((he | he) | rfl) | he) | he
        · exact (tid_event_shape fd o item s e he).2.2
        · exact am_event_shape o s e he
        · rfl
        · exact sf_event_shape o (add_magnet o s).1 (some c) e he
        · rw [saf_events] at he
          exact (gi_event_shape o (add_magnet o s).1 e he).2.2

/-- Every availability query that `is_cached` issues carries exactly its
input hash list. -/
theorem ic_avail_attrib (fd : Item → List IdFile → List IdFile) (o : RDOracle)
    (core : Item) (hs0 : List String) :
    ∀ e ∈ (is_cached fd o core hs0 true).2, ∀ hs,
      isAvailQueryFor hs e = true → hs = hs0 := by
  intro e he hs hfor
  have he' := eq_availQuery_of_availQueryFor hfor
  subst he'
  unfold is_cached at he
  by_cases hemp : (get_instant_availability o hs0).1 = []
  · rw [if_pos hemp] at he
    exact (gia_event_shape o hs0 _ he).2.2.2 hs rfl
  · rw [if_neg hemp] at he
    rcases List.mem_append.mp he with he | he
    · exact (gia_event_shape o hs0 _ he).2.2.2 hs rfl
    · have := (scanHashes_scanOk fd core (get_instant_availability o hs0).1 []).1 _ he
      simp [isMatcherCall] at this

theorem map_nodup_ne : ∀ (l : List Stream), (l.map Stream.infohash).Nodup →
    ∀ u ∈ l, ∀ t ∈ l, u.infohash = t.infohash → u = t := by
  intro l
  induction l with
  | nil => intro _ u hu; exact absurd hu (List.not_mem_nil u)
  | cons x xs ih =>
    intro hnd u hu t ht heq
    simp only [List.map_cons, List.nodup_cons] at hnd
    rcases List.mem_cons.mp hu with rfl | hu'
    · rcases List.mem_cons.mp ht with rfl | ht'
      · rfl
      · exact absurd (by rw [heq]; exact List.mem_map.mpr ⟨t, ht', rfl⟩) hnd.1
    · rcases List.mem_cons.mp ht with rfl | ht'
      · exact absurd (by rw [← heq]; exact List.mem_map.mpr ⟨u, hu', rfl⟩) hnd.1
      · exact ih hnd.2 u hu' t ht' heq

/-- Walking `run`'s loop over a prefix of streams that are each either
blacklisted (skipped silently) or without availability (blacklisted): the
loop reaches the rest with an enlarged blacklist, the prefix's events query
only the hashes of examined (non-blacklisted) prefix streams, and no stream
of the prefix escapes the final blacklist. -/
theorem runLoop_skip (fd : Item → List IdFile → List IdFile) (o : RDOracle)
    (rest : List Stream) :
    ∀ (l1 : List Stream) (I : MediaItem),
      (∀ t ∈ l1, t ∈ I.blacklisted ∨ (is_cached fd o I.core [t.infohash] true).1 = []) →
      ∃ B' evs1,
        runLoop fd o I (l1 ++ rest) =
          ((runLoop fd o ⟨I.core, I.streams, B'⟩ rest).1,
            evs1 ++ (runLoop fd o ⟨I.core, I.streams, B'⟩ rest).2) ∧
        (∀ x ∈ I.blacklisted, x ∈ B') ∧
        (∀ t ∈ l1, t ∈ B') ∧
        (∀ x ∈ B', x ∈ I.blacklisted ∨ x ∈ l1) ∧
        (∀ e ∈ evs1, ∀ hs, isAvailQueryFor hs e = true →
          ∃ u, u ∈ l1 ∧ u ∉ I.blacklisted ∧ hs = [u.infohash]) := by
  intro l1
  induction l1 with
  | nil =>
    intro I _
    exact ⟨I.blacklisted, [], by simp, fun x hx => hx, fun t ht => absurd ht (List.not_mem_nil t),
      fun x hx => .inl hx, fun e he => absurd he (List.not_mem_nil e)⟩
  | cons t l1' ih =>
    intro I hyp
    by_cases hbl : I.is_stream_blacklisted t = true
    · have hstep : runLoop fd o I ((t :: l1') ++ rest) = runLoop fd o I (l1' ++ rest) := by
        simp only [List.cons_append, runLoop, if_pos hbl, List.append_eq]
      obtain ⟨B', evs1, heq, hb1, hb2, hb3, hb4⟩ :=
        ih I (fun u hu => hyp u (List.mem_cons_of_mem _ hu))
      have htmem : t ∈ I.blacklisted := by
        simpa [MediaItem.is_stream_blacklisted] using hbl
      refine ⟨B', evs1, hstep ▸ heq, hb1, ?_, ?_, ?_⟩
      · intro u hu
        rcases List.mem_cons.mp hu with rfl | hu
        · exact hb1 u htmem
        · exact hb2 u hu
      · intro x hx
        rcases hb3 x hx with hx' | hx'
        · exact .inl hx'
        · exact .inr (List.mem_cons_of_mem _ hx')
      · intro e he hs hfor
        obtain ⟨u, hu1, hu2, hu3⟩ := hb4 e he hs hfor
        exact ⟨u, List.mem_cons_of_mem _ hu1, hu2, hu3⟩
    · have htnb : t ∉ I.blacklisted := by
        simpa [MediaItem.is_stream_blacklisted] using hbl
      have hic : (is_cached fd o I.core [t.infohash] true).1 = [] := by
        rcases hyp t (List.mem_cons_self t l1') with h | h
        · exact absurd h htnb
        · exact h
      have hstep : runLoop fd o I ((t :: l1') ++ rest) =
          ((runLoop fd o (I.blacklist_stream t) (l1' ++ rest)).1,
            (is_cached fd o I.core [t.infohash] true).2 ++
              [.logDebug "Blacklisting uncached hash"] ++
              (runLoop fd o (I.blacklist_stream t) (l1' ++ rest)).2) := by
        simp only [List.cons_append, runLoop, if_neg hbl, if_pos hic, List.append_eq]
      have hyp2 : ∀ u ∈ l1', u ∈ (I.blacklist_stream t).blacklisted ∨
          (is_cached fd o (I.blacklist_stream t).core [u.infohash] true).1 = [] := by
        intro u hu
        rcases hyp u (List.mem_cons_of_mem _ hu) with h | h
        · exact .inl (List.mem_append_left _ h)
        · exact .inr h
      obtain ⟨B', evs1, heq, hb1, hb2, hb3, hb4⟩ := ih (I.blacklist_stream t) hyp2
      refine ⟨B',
        (is_cached fd o I.core [t.infohash] true).2 ++
          [.logDebug "Blacklisting uncached hash"] ++ evs1, ?_, ?_, ?_, ?_, ?_⟩
      · rw [hstep, heq]
        simp [MediaItem.blacklist_stream, List.append_assoc]
      · intro x hx
        exact hb1 x (List.mem_append_left _ hx)
      · intro u hu
        rcases List.mem_cons.mp hu with rfl | hu
        · exact hb1 u (List.mem_append_right _ (List.mem_singleton.mpr rfl))
        · exact hb2 u hu
      · intro x hx
        rcases hb3 x hx with hx' | hx'
        · rcases List.mem_append.mp hx' with h | h
          · exact .inl h
          · rcases List.mem_singleton.mp h with rfl
            exact .inr (List.mem_cons_self _ _)
        · exact .inr (List.mem_cons_of_mem _ hx')
      · intro e he hs hfor
        rcases List.mem_append.mp he with he | he
        · rcases List.mem_append.mp he with he | he
          · have := ic_avail_attrib fd o I.core [t.infohash] e he hs hfor
            exact ⟨t, List.mem_cons_self _ _, htnb, this⟩
          · rcases List.mem_singleton.mp he with rfl
            simp [isAvailQueryFor] at hfor
        · obtain ⟨u, hu1, hu2, hu3⟩ := hb4 e he hs hfor
          exact ⟨u, List.mem_cons_of_mem _ hu1,
            fun hx => hu2 (List.mem_append_left _ hx), hu3⟩

/-- C4: `run` skips blacklisted streams without querying availability for
them, blacklists every examined stream with no cached match, and on the first
stream with a non-empty cached match performs the download sequence, stops
iterating (no availability query for any later stream), and returns `True`. -/
theorem claim_C4 (fd : Item → List IdFile → List IdFile) (o : RDOracle)
    (item : MediaItem) (l1 l2 : List Stream) (s : Stream)
    (files : List IdFile) (core' : Item)
    (hsplit : item.streams = l1 ++ s :: l2)
    (hnd : ((l1 ++ s :: l2).map Stream.infohash).Nodup)
    (hl1 : ∀ t ∈ l1, t ∈ item.blacklisted ∨ (is_cached fd o item.core [t.infohash] true).1 = [])
    (hs1 : s ∉ item.blacklisted) (hs2 : s ∉ l1)
    (hm : (is_cached fd o item.core [s.infohash] true).1 = [(s.infohash, files)])
    (hdl : (download fd o item.core s.infohash files).1 = .ok core') :
    ∃ B',
      (run fd o item).1 = .ok (true, ⟨core', item.streams, B'⟩) ∧
      (∀ t ∈ l1, t ∉ item.blacklisted → t ∈ B') ∧
      (∀ t ∈ l1, t ∈ item.blacklisted →
        (run fd o item).2.countP (isAvailQueryFor [t.infohash]) = 0) ∧
      (∀ t ∈ l2, (run fd o item).2.countP (isAvailQueryFor [t.infohash]) = 0) := by
  have hmapped : (l1.map Stream.infohash ++ (s :: l2).map Stream.infohash).Nodup := by
    rw [← List.map_append]; exact hnd
  obtain ⟨hndl1, hndsl2, hdisj⟩ := List.nodup_append.mp hmapped
  have hsl2 : s.infohash ∉ l2.map Stream.infohash := by
    have h' := hndsl2
    rw [List.map_cons, List.nodup_cons] at h'
    exact h'.1
  obtain ⟨B', evs1, heq, hb1, hb2, hb3, hb4⟩ := runLoop_skip fd o (s :: l2) l1 item hl1
  have hrun : run fd o item = runLoop fd o item (l1 ++ s :: l2) := by
    unfold run; rw [hsplit]
  have hsB : s ∉ B' := by
    intro hx
    rcases hb3 s hx with h | h
    · exact hs1 h
    · exact hs2 h
  have hsbl : MediaItem.is_stream_blacklisted ⟨item.core, item.streams, B'⟩ s = false := by
    simp [MediaItem.is_stream_blacklisted, hsB]
  have hlk : List.lookup s.infohash [(s.infohash, files)] = some files := by
    simp [List.lookup]
  have hstep : runLoop fd o ⟨item.core, item.streams, B'⟩ (s :: l2) =
      (.ok (true, ⟨core', item.streams, B'⟩),
        (is_cached fd o item.core [s.infohash] true).2 ++
          [.logDebrid "Item has cached containers"] ++
          (download fd o item.core s.infohash files).2) := by
    simp only [runLoop]
    rw [hsbl]
    rw [if_neg (by simp)]
    rw [hm, if_neg (by simp), hlk]
    simp only []
    rw [hdl]
  refine ⟨B', ?_, fun t ht _ => hb2 t ht, ?_, ?_⟩
  · rw [hrun, heq, hstep]
  · intro t ht htbl
    rw [hrun, heq, hstep]
    simp only []
    refine List.countP_eq_zero.mpr fun e he => ?_
    intro hfor
    rcases List.mem_append.mp he with he | he
    · obtain ⟨u, hu1, hu2, hu3⟩ := hb4 e he _ hfor
      have heq2 : t.infohash = u.infohash := by
        simpa using hu3
      have hut : u = t := map_nodup_ne l1 hndl1 u hu1 t ht heq2.symm
      exact hu2 (hut ▸ htbl)
    · rcases List.mem_append.mp he with he | he
      · rcases List.mem_append.mp he with he | he
        · have hs' := ic_avail_attrib fd o item.core [s.infohash] e he _ hfor
          have heq2 : t.infohash = s.infohash := by
            simpa using hs'
          refine hdisj (List.mem_map.mpr ⟨t, ht, rfl⟩) ?_
          rw [heq2]
          exact List.mem_map.mpr ⟨s, List.mem_cons_self _ _, rfl⟩
        · rcases List.mem_singleton.mp he with rfl
          simp [isAvailQueryFor] at hfor
      · have := download_no_avail fd o item.core s.infohash files e he
        exact absurd (availFor_imp hfor) (by simp [this])
  · intro t ht
    rw [hrun, heq, hstep]
    simp only []
    refine List.countP_eq_zero.mpr fun e he => ?_
    intro hfor
    rcases List.mem_append.mp he with he | he
    · obtain ⟨u, hu1, hu2, hu3⟩ := hb4 e he _ hfor
      have heq2 : t.infohash = u.infohash := by
        simpa using hu3
      refine hdisj (List.mem_map.mpr ⟨u, hu1, rfl⟩) ?_
      rw [← heq2]
      exact List.mem_map.mpr ⟨t, List.mem_cons_of_mem _ ht, rfl⟩
    · rcases List.mem_append.mp he with he | he
      · rcases List.mem_append.mp he with he | he
        · have hs' := ic_avail_attrib fd o item.core [s.infohash] e he _ hfor
          have heq2 : t.infohash = s.infohash := by
            simpa using hs'
          exact hsl2 (heq2 ▸ List.mem_map.mpr ⟨t, ht, rfl⟩)
        · rcases List.mem_singleton.mp he with rfl
          simp [isAvailQueryFor] at hfor
      · have := download_no_avail fd o item.core s.infohash files e he
        exact absurd (availFor_imp hfor) (by simp [this])

/-- C4 witness: four streams — blacklisted `"h1"` (never queried), uncached
`"h2"` (blacklisted), cached `"h3"` (downloaded, run returns `True`), and
`"h4"` (never reached). -/
theorem claim_C4_witness :
    isTrueOk (run fdAll oHappy itemFour).1 = true ∧
    (⟨"h2"⟩ : Stream) ∈ resultBlacklist (run fdAll oHappy itemFour).1 ∧
    (run fdAll oHappy itemFour).2.countP (isAvailQueryFor ["h1"]) = 0 ∧
    (run fdAll oHappy itemFour).2.countP (isAvailQueryFor ["h4"]) = 0 := by
  obtain ⟨B', h1, h2, h3, h4⟩ := claim_C4 fdAll oHappy itemFour
    [⟨"h1"⟩, ⟨"h2"⟩] [⟨"h4"⟩] ⟨"h3"⟩ [movieFile]
    (Item.movie ⟨some "Movie.Folder", some "Movie.Orig", some "movie.mkv"⟩)
    rfl (by decide) (by decide) (by decide) (by decide) (by decide) (by rfl)
  refine ⟨?_, ?_, ?_, ?_⟩
  · rw [h1]; rfl
  · rw [h1]
    exact h2 ⟨"h2"⟩ (by decide) (by decide)
  · exact h3 ⟨"h1"⟩ (by decide) (by decide)
  · exact h4 ⟨"h4"⟩ (by decide)

end RD
